import Mathlib

/-!
Shallow embedding of `src/cpu_common/cpu_info.rs` (fas-rs-next): the per-domain
CPU frequency controller `Info` with its operations `new`, `verify_freq`,
`ignore_write`, `critical_policy`, `write_freq` and `reset`.

Modelling conventions:
* `isize` / `i32` values are `Int`; `usize` core indices are `Nat`.
* `Instant` timestamps are `Nat` milliseconds; `Duration::from_secs(3)` is the
  constant `threeSecsMs`; `Instant::elapsed` is truncated subtraction
  `now - timer` (an `Instant` stored in the state never exceeds the current
  monotonic `now` in a real execution, and truncation is harmless otherwise).
* Filesystem effects are reified: writes through
  `FileHandler::write_with_workround` become `Event.write` entries in an event
  trace (the written string is the decimal rendering of an `Int`, so the value
  is kept as `Int`), and an evaluation inside `verify_freq` (reading
  `scaling_cur_freq` and comparing with the acceptance band) becomes an
  `Event.verifyEval` entry.
* The process environment (the global `IGNORE_MAP`, the hardware-reported
  frequency, and which writes fail) is an explicit `Env` record.
* `anyhow::Result` errors are `Outcome.err`; a Rust `unwrap` panic is
  `Outcome.panicked` (for `Info::new`, `NewResult.panicked`).
-/

namespace FasRs

/-- `nix::sched::CpuSet`: a fixed-size bit set over core indices.
`is_set` returns an error (here `none`) for an index outside the set's
representable range, exactly like the nix crate's `CpuSet::is_set`. -/
structure CpuSet where
  size : Nat
  bits : Nat → Bool

def CpuSet.is_set (s : CpuSet) (core : Nat) : Option Bool :=
  if core < s.size then some (s.bits core) else none

/-- The two sysfs control files written by the controller. -/
inductive CtrlFile
  | scalingMaxFreq
  | scalingMinFreq
deriving DecidableEq

/-- One evaluation performed inside `Info::verify_freq`: the stored baseline
target, the hardware-reported frequency, the computed acceptance band, and
whether the out-of-band warning fired. -/
structure VerifyEvent where
  baseline : Int
  current_freq : Int
  min_acceptable : Int
  max_acceptable : Int
  warned : Bool
deriving DecidableEq

/-- Observable effects of one controller call, in program order. -/
inductive Event
  | write (file : CtrlFile) (value : Int)
  | verifyEval (e : VerifyEvent)
deriving DecidableEq

/-- Result of `write_freq` / `reset`: `anyhow::Result<()>` plus a distinguished
panic outcome for `unwrap` failures. -/
inductive Outcome
  | ok
  | err (msg : String)
  | panicked
deriving DecidableEq

/-- Process environment seen by one call: the global `IGNORE_MAP`
(`none` = not initialized; per-policy lookup yielding `none` = policy absent),
the hardware frequency reported by `scaling_cur_freq` at a given instant, and
which writes the `FileHandler` fails on. -/
structure Env where
  ignoreMap : Option (Int → Option Bool)
  hw : Nat → Int
  wfail : CtrlFile → Int → Bool

/-- The state of `cpu_common::cpu_info::Info` (the `path` field is abstracted
away: the two files it addresses are the `CtrlFile` tags). -/
structure Info where
  policy : Int
  affected_cpus : List Nat
  cur_fas_freq : Int
  freqs : List Int
  verify_freq : Option Int
  verify_timer : Nat
deriving DecidableEq

/-- `Duration::from_secs(3)` in milliseconds. -/
def threeSecsMs : Nat := 3000

/-- `isize::clamp(self, min, max)` (Rust asserts `min <= max`; every call site
in this file has `min = freqs.first() <= freqs.last() = max` for a sorted
non-empty table). -/
def rustClamp (x lo hi : Int) : Int :=
  if x < lo then lo else if x > hi then hi else x

/-- Lower edge of the verification acceptance band:
`freqs.iter().take_while(|f| **f <= vf).last().copied().unwrap_or(vf)`. -/
def minAcceptable (freqs : List Int) (vf : Int) : Int :=
  ((freqs.takeWhile (fun f => decide (f ≤ vf))).getLast?).getD vf

/-- Upper edge of the verification acceptance band:
`freqs.iter().find(|f| **f >= vf).copied().unwrap_or(vf)`. -/
def maxAcceptable (freqs : List Int) (vf : Int) : Int :=
  (freqs.find? (fun f => decide (vf ≤ f))).getD vf

/-- `Info::verify_freq` (named `verify_freq_step` here because the Rust method
shares its name with the `verify_freq` field). Returns the updated state and
`some` evaluation event when the debounce window had closed and a baseline
existed. -/
def Info.verify_freq_step (s : Info) (write_freq : Int) (now : Nat) (env : Env) :
    Info × Option VerifyEvent :=
  if threeSecsMs ≤ now - s.verify_timer then
    let s' := { s with verify_timer := now }
    match s'.verify_freq with
    | some vf =>
      let current_freq := env.hw now
      let lo := minAcceptable s'.freqs vf
      let hi := maxAcceptable s'.freqs vf
      let warned := !(decide (lo ≤ current_freq) && decide (current_freq ≤ hi))
      ({ s' with verify_freq := some write_freq },
        some ⟨vf, current_freq, lo, hi, warned⟩)
    | none => ({ s' with verify_freq := some write_freq }, none)
  else ({ s with verify_freq := some write_freq }, none)

/-- `Info::ignore_write`: look the policy up in the global `IGNORE_MAP`. -/
def Info.ignore_write (s : Info) (env : Env) : Except String Bool :=
  match env.ignoreMap with
  | none => .error "IGNORE_MAP not initialized"
  | some m =>
    match m s.policy with
    | none => .error "Policy ignore flag not found"
    | some b => .ok b

/-- Helper for `Info::critical_policy`: Rust's short-circuiting
`iter().any(|core| top_used_cores.is_set(*core).unwrap())`. `none` is the
`unwrap` panic, reached when an out-of-range index is examined before any set
bit is found. -/
def criticalAny (top : CpuSet) : List Nat → Option Bool
  | [] => some false
  | core :: rest =>
    match top.is_set core with
    | none => none
    | some true => some true
    | some false => criticalAny top rest

/-- `Info::critical_policy`. -/
def Info.critical_policy (s : Info) (top_used_cores : CpuSet) : Option Bool :=
  criticalAny top_used_cores s.affected_cpus

/-- `Info::write_freq`. Returns the post-call state, the trace of observable
effects in program order, and the call's outcome. On an error or panic the
state reflects all mutations made before the failure point, as with `&mut
self` in Rust. -/
def Info.write_freq (s : Info) (top_used_cores : CpuSet) (freq : Int)
    (env : Env) (now : Nat) : Info × List Event × Outcome :=
  match s.freqs.head? with
  | none => (s, [], .err "No frequencies available")
  | some min_freq =>
    match s.freqs.getLast? with
    | none => (s, [], .err "No frequencies available")
    | some max_freq =>
      let adjusted_freq := rustClamp freq min_freq max_freq
      let s := { s with cur_fas_freq := adjusted_freq }
      match s.ignore_write env with
      | .error e => (s, [], .err e)
      | .ok ignore =>
        if ignore then (s, [], .ok)
        else
          match s.critical_policy top_used_cores with
          | none => (s, [], .panicked)
          | some crit =>
            if crit then
              let r := s.verify_freq_step adjusted_freq now env
              let s := r.1
              let evs := match r.2 with
                | some e => [Event.verifyEval e]
                | none => []
              if env.wfail .scalingMaxFreq adjusted_freq then
                (s, evs, .err "write failed")
              else if env.wfail .scalingMinFreq adjusted_freq then
                (s, evs ++ [Event.write .scalingMaxFreq adjusted_freq],
                  .err "write failed")
              else
                (s, evs ++ [Event.write .scalingMaxFreq adjusted_freq,
                    Event.write .scalingMinFreq adjusted_freq], .ok)
            else
              if env.wfail .scalingMinFreq min_freq then
                (s, [], .err "write failed")
              else if env.wfail .scalingMaxFreq adjusted_freq then
                (s, [Event.write .scalingMinFreq min_freq], .err "write failed")
              else
                (s, [Event.write .scalingMinFreq min_freq,
                    Event.write .scalingMaxFreq adjusted_freq], .ok)

/-- Inputs of `Info::new`: the directory's file name (`none` models
`path.file_name().and_then(to_str)` failing) and the contents of the two files
it reads (`none` models a read failure). -/
structure CpufreqDir where
  file_name : Option String
  scaling_available_frequencies : Option String
  affected_cpus : Option String

/-- Result of `Info::new`: `anyhow::Result<Info>` plus the `unwrap` panic the
affected-cpus parsing can hit. -/
inductive NewResult
  | ok (i : Info)
  | err (msg : String)
  | panicked
deriving DecidableEq

/-- Decimal digits to a number (`none` when empty or a non-digit appears). -/
def parseDigits : List Char → Option Nat
  | [] => none
  | cs =>
    if cs.all Char.isDigit then
      some (cs.foldl (fun a c => a * 10 + (c.toNat - 48)) 0)
    else none

/-- Rust `str::parse::<usize>`: optional leading `+`, then digits, bounded by
`usize::MAX` (64-bit). -/
def parseUsize (s : String) : Option Nat :=
  let v :=
    match s.data with
    | '+' :: rest => parseDigits rest
    | cs => parseDigits cs
  v.bind (fun n => if n < 2 ^ 64 then some n else none)

/-- Rust signed integer parsing: optional sign, then digits, range-checked
against `[-2 ^ (w - 1), 2 ^ (w - 1))`. -/
def parseSigned (w : Nat) (s : String) : Option Int :=
  let v : Option Int :=
    match s.data with
    | '-' :: rest => (parseDigits rest).map (fun n => -(n : Int))
    | '+' :: rest => (parseDigits rest).map (fun n => (n : Int))
    | cs => (parseDigits cs).map (fun n => (n : Int))
  v.bind (fun n =>
    if -(2 ^ (w - 1) : Int) ≤ n ∧ n < (2 ^ (w - 1) : Int) then some n else none)

/-- Worker for `splitWhitespace`: `acc` holds the current token's characters
in reverse order. -/
def splitWSGo : List Char → List Char → List String
  | [], acc => if acc.isEmpty then [] else [String.mk acc.reverse]
  | c :: cs, acc =>
    if c.isWhitespace then
      (if acc.isEmpty then [] else [String.mk acc.reverse]) ++ splitWSGo cs []
    else splitWSGo cs (c :: acc)

/-- Rust `str::split_whitespace`: maximal runs of non-whitespace characters;
empty pieces never occur. -/
def splitWhitespace (s : String) : List String :=
  splitWSGo s.data []

/-- Frequency-token parsing: `collect::<Result<Vec<isize>>>` short-circuits at
the first token that fails to parse. -/
def parseFreqs : List String → Except String (List Int)
  | [] => .ok []
  | t :: ts =>
    match parseSigned 64 t with
    | none => .error "Failed to parse frequency"
    | some v => (parseFreqs ts).map (fun vs => v :: vs)

/-- Affected-cpus parsing: `map(|core| core.parse::<usize>().unwrap())`,
so the first bad token is a panic (`none`), not an error. -/
def parseCores : List String → Option (List Nat)
  | [] => some []
  | t :: ts =>
    match parseUsize t with
    | none => none
    | some v => (parseCores ts).map (fun vs => v :: vs)

/-- `Info::new`. `now` is the construction instant (`Instant::now()`).
`file_name.get(6..)` is modelled at character granularity. `sort_unstable` is
modelled by `insertionSort`: on a total order both produce the unique sorted
permutation. -/
def Info.new (d : CpufreqDir) (now : Nat) : NewResult :=
  match d.file_name with
  | none => .err "Invalid file name"
  | some file_name =>
    if file_name.length < 6 then .err "Invalid policy format"
    else
      match parseSigned 32 (String.mk (file_name.data.drop 6)) with
      | none => .err "Failed to parse policy"
      | some policy =>
        match d.scaling_available_frequencies with
        | none => .err "Failed to read frequencies"
        | some freqs_content =>
          match parseFreqs (splitWhitespace freqs_content) with
          | .error e => .err e
          | .ok freqs0 =>
            let freqs := freqs0.insertionSort (fun a b => a ≤ b)
            match d.affected_cpus with
            | none => .err "Failed to read affected_cpus"
            | some cpus_content =>
              match parseCores (splitWhitespace cpus_content) with
              | none => .panicked
              | some affected_cpus =>
                match freqs.getLast? with
                | none => .err "No frequencies available"
                | some top =>
                  .ok { policy := policy, affected_cpus := affected_cpus,
                        cur_fas_freq := top, freqs := freqs,
                        verify_freq := none, verify_timer := now }

/-- `Info::reset`. -/
def Info.reset (s : Info) (env : Env) : Info × List Event × Outcome :=
  match s.freqs.head? with
  | none => (s, [], .err "No frequencies available")
  | some min_freq =>
    match s.freqs.getLast? with
    | none => (s, [], .err "No frequencies available")
    | some max_freq =>
      let s := { s with verify_freq := none }
      if env.wfail .scalingMaxFreq max_freq then
        (s, [], .err "write failed")
      else if env.wfail .scalingMinFreq min_freq then
        (s, [Event.write .scalingMaxFreq max_freq], .err "write failed")
      else
        (s, [Event.write .scalingMaxFreq max_freq,
            Event.write .scalingMinFreq min_freq], .ok)

/-- One call the external control loop can issue on a domain. -/
inductive Op
  | applyFreq (top : CpuSet) (freq : Int) (env : Env) (now : Nat)
  | resetCall (env : Env)

/-- Dispatch one call. -/
def Info.stepOp (s : Info) : Op → Info × List Event × Outcome
  | .applyFreq top freq env now => s.write_freq top freq env now
  | .resetCall env => s.reset env

/-- Run a sequence of calls, concatenating the event traces. A failed call
leaves its partial state in place and the loop moves on, as the control loop
does with a per-tick error. -/
def Info.run (s : Info) : List Op → Info × List Event
  | [] => (s, [])
  | op :: ops =>
    let r := s.stepOp op
    let rest := r.1.run ops
    (rest.1, r.2.1 ++ rest.2)

/-- One critical apply as seen by the verification machinery: its instant and
its clamped target. -/
structure VCall where
  now : Nat
  target : Int
deriving DecidableEq

/-- Trace record of one `verify_freq` call: when it ran, which target it
stored, whether the 3-second window closed at this call, and the evaluation it
performed, if any. -/
structure VStep where
  time : Nat
  target : Int
  closed : Bool
  ev : Option VerifyEvent
deriving DecidableEq

/-- Run `verify_freq` over a sequence of calls, recording one `VStep` each. -/
def Info.runVerify (s : Info) (env : Env) : List VCall → Info × List VStep
  | [] => (s, [])
  | c :: cs =>
    let closed := decide (threeSecsMs ≤ c.now - s.verify_timer)
    let r := s.verify_freq_step c.target c.now env
    let rest := r.1.runVerify env cs
    (rest.1, ⟨c.now, c.target, closed, r.2⟩ :: rest.2)

/-! Concrete sample data used by witnesses and counterexamples. -/

/-- A well-formed control directory: `policy0`, four frequencies (unsorted on
disk), cores 0 and 4. -/
def sampleDir : CpufreqDir :=
  ⟨some "policy0", some "400 100 300 200", some "0 4"⟩

/-- The domain `Info.new sampleDir 0` constructs. -/
def sampleInfo : Info :=
  ⟨0, [0, 4], 400, [100, 200, 300, 400], none, 0⟩

/-- Same directory but the affected-cpus file holds a non-numeric token. -/
def sampleDirBadCore : CpufreqDir :=
  ⟨some "policy0", some "400 100 300 200", some "0 x"⟩

/-- Same directory but the affected-cpus file is unreadable. -/
def sampleDirNoAffinity : CpufreqDir :=
  ⟨some "policy0", some "400 100 300 200", none⟩

/-- Environment: bypass flag clear for every policy, hardware reports 150,
every write succeeds. -/
def envOk : Env := ⟨some (fun _ => some false), fun _ => 150, fun _ _ => false⟩

/-- Environment with the bypass flag set for every policy. -/
def envBypass : Env := ⟨some (fun _ => some true), fun _ => 150, fun _ _ => false⟩

/-- A 1024-bit busy-core set with exactly core 0 busy. -/
def topBusy0 : CpuSet := ⟨1024, fun c => decide (c = 0)⟩

/-- A 1024-bit busy-core set with no core busy. -/
def topIdle : CpuSet := ⟨1024, fun _ => false⟩

/-- A domain whose affected-core list contains index 2000, beyond the 1024-bit
busy-core set. -/
def oobInfo : Info := ⟨0, [0, 2000], 400, [100, 200, 300, 400], none, 0⟩

/-- Bound discipline for one observable event: every `write` carries a value
inside `[lo, hi]`; a `verifyEval` is not a write. -/
def writeWithin (lo hi : Int) : Event → Prop
  | .write _ v => lo ≤ v ∧ v ≤ hi
  | .verifyEval _ => True

/-! Field-preservation and characterisation lemmas for `verify_freq_step`. -/

/-- Branch-free description of `verify_freq_step`, used by the other lemmas. -/
theorem verify_freq_step_eq (s : Info) (w : Int) (n : Nat) (env : Env) :
    s.verify_freq_step w n env =
      if threeSecsMs ≤ n - s.verify_timer then
        match s.verify_freq with
        | some vf =>
          ({ s with verify_timer := n, verify_freq := some w },
            some ⟨vf, env.hw n, minAcceptable s.freqs vf,
              maxAcceptable s.freqs vf,
              !(decide (minAcceptable s.freqs vf ≤ env.hw n) &&
                decide (env.hw n ≤ maxAcceptable s.freqs vf))⟩)
        | none => ({ s with verify_timer := n, verify_freq := some w }, none)
      else ({ s with verify_freq := some w }, none) := rfl

theorem verify_freq_step_verify_freq (s : Info) (w : Int) (n : Nat) (env : Env) :
    (s.verify_freq_step w n env).1.verify_freq = some w := by
  rw [verify_freq_step_eq]
  split
  · cases s.verify_freq <;> rfl
  · rfl

theorem verify_freq_step_cur (s : Info) (w : Int) (n : Nat) (env : Env) :
    (s.verify_freq_step w n env).1.cur_fas_freq = s.cur_fas_freq := by
  rw [verify_freq_step_eq]
  split
  · cases s.verify_freq <;> rfl
  · rfl

theorem verify_freq_step_freqs (s : Info) (w : Int) (n : Nat) (env : Env) :
    (s.verify_freq_step w n env).1.freqs = s.freqs := by
  rw [verify_freq_step_eq]
  split
  · cases s.verify_freq <;> rfl
  · rfl

theorem verify_freq_step_affected (s : Info) (w : Int) (n : Nat) (env : Env) :
    (s.verify_freq_step w n env).1.affected_cpus = s.affected_cpus := by
  rw [verify_freq_step_eq]
  split
  · cases s.verify_freq <;> rfl
  · rfl

theorem verify_freq_step_timer_le (s : Info) (w : Int) (n : Nat) (env : Env) :
    s.verify_timer ≤ (s.verify_freq_step w n env).1.verify_timer := by
  rw [verify_freq_step_eq]
  have h3 : (0 : Nat) < threeSecsMs := by simp [threeSecsMs]
  split
  · next hcond => cases s.verify_freq <;> (dsimp only; omega)
  · simp

theorem verify_freq_step_ev_eq (s : Info) (w : Int) (n : Nat) (env : Env)
    (e : VerifyEvent) (h : (s.verify_freq_step w n env).2 = some e) :
    (s.verify_freq_step w n env).1.verify_timer = n ∧
      s.verify_timer + threeSecsMs ≤ n ∧ s.verify_freq = some e.baseline := by
  rw [verify_freq_step_eq] at h ⊢
  have h3 : (0 : Nat) < threeSecsMs := by simp [threeSecsMs]
  split at h
  · next hcond =>
    rw [if_pos hcond]
    cases hvf : s.verify_freq with
    | none => rw [hvf] at h; simp at h
    | some vf =>
      rw [hvf] at h
      simp only [Option.some.injEq] at h
      subst h
      exact ⟨rfl, by omega, rfl⟩
  · simp at h

/-! Sorted-list facts: the head is a lower bound, the last element an upper
bound. -/

theorem mem_of_getLast?_eq (l : List Int) (a : Int) (h : l.getLast? = some a) :
    a ∈ l := by
  have hm : a ∈ l.getLast? := by rw [h]; rfl
  rcases List.mem_getLast?_eq_getLast hm with ⟨hne, rfl⟩
  exact List.getLast_mem hne

theorem head?_le_of_sorted (l : List Int) (lo : Int)
    (hs : l.Sorted (fun a b => a ≤ b)) (h : l.head? = some lo) :
    ∀ x ∈ l, lo ≤ x := by
  cases l with
  | nil => simp at h
  | cons a t =>
    simp only [List.head?_cons, Option.some.injEq] at h
    subst h
    rw [List.sorted_cons] at hs
    intro x hx
    rcases List.mem_cons.mp hx with rfl | hx
    · exact le_refl _
    · exact hs.1 x hx

theorem le_getLast?_of_sorted (l : List Int) (hi : Int)
    (hs : l.Sorted (fun a b => a ≤ b)) (h : l.getLast? = some hi) :
    ∀ x ∈ l, x ≤ hi := by
  induction l with
  | nil => simp at h
  | cons a t ih =>
    cases t with
    | nil =>
      simp only [List.getLast?_singleton, Option.some.injEq] at h
      subst h
      intro x hx
      simp only [List.mem_singleton] at hx
      subst hx
      exact le_refl _
    | cons b t' =>
      rw [List.getLast?_cons_cons] at h
      rw [List.sorted_cons] at hs
      intro x hx
      rcases List.mem_cons.mp hx with rfl | hx
      · exact hs.1 hi (mem_of_getLast?_eq _ _ h)
      · exact ih hs.2 h x hx

theorem head?_le_getLast?_of_sorted (l : List Int) (lo hi : Int)
    (hs : l.Sorted (fun a b => a ≤ b)) (h1 : l.head? = some lo)
    (h2 : l.getLast? = some hi) : lo ≤ hi := by
  rcases List.head?_eq_some_iff.mp h1 with ⟨t, rfl⟩
  exact le_getLast?_of_sorted _ hi hs h2 lo (List.mem_cons_self lo t)

/-- `rustClamp` lands in `[lo, hi]` whenever `lo ≤ hi`. -/
theorem rustClamp_mem (x lo hi : Int) (h : lo ≤ hi) :
    lo ≤ rustClamp x lo hi ∧ rustClamp x lo hi ≤ hi := by
  unfold rustClamp
  split_ifs <;> omega

/-! Acceptance-band facts (`minAcceptable` / `maxAcceptable`). -/

theorem minAcceptable_le (freqs : List Int) (vf : Int) :
    minAcceptable freqs vf ≤ vf := by
  unfold minAcceptable
  cases h : (freqs.takeWhile (fun f => decide (f ≤ vf))).getLast? with
  | none => simp
  | some m =>
    have hm := List.mem_takeWhile_imp (mem_of_getLast?_eq _ _ h)
    simp only [decide_eq_true_eq] at hm
    simpa using hm

theorem le_maxAcceptable (freqs : List Int) (vf : Int) :
    vf ≤ maxAcceptable freqs vf := by
  unfold maxAcceptable
  cases h : freqs.find? (fun f => decide (vf ≤ f)) with
  | none => simp
  | some m =>
    have hm := List.find?_some h
    simp only [decide_eq_true_eq] at hm
    simpa using hm

theorem find?_ge_of_sorted_mem (l : List Int) (vf : Int)
    (hs : l.Sorted (fun a b => a ≤ b)) (hmem : vf ∈ l) :
    l.find? (fun f => decide (vf ≤ f)) = some vf := by
  induction l with
  | nil => simp at hmem
  | cons a t ih =>
    rw [List.sorted_cons] at hs
    rw [List.find?_cons]
    by_cases hle : vf ≤ a
    · rcases List.mem_cons.mp hmem with rfl | hmem
      · simp
      · have : a ≤ vf := hs.1 vf hmem
        have : a = vf := le_antisymm this hle
        subst this
        simp
    · have hne : vf ≠ a := fun hcontra => hle (hcontra ▸ le_refl vf)
      have hmem' : vf ∈ t := by
        rcases List.mem_cons.mp hmem with rfl | hmem'
        · exact absurd rfl hne
        · exact hmem'
      simp only [decide_eq_false hle]
      exact ih hs.2 hmem'

theorem takeWhile_getLast?_of_sorted_mem (l : List Int) (vf : Int)
    (hs : l.Sorted (fun a b => a ≤ b)) (hmem : vf ∈ l) :
    (l.takeWhile (fun f => decide (f ≤ vf))).getLast? = some vf := by
  induction l with
  | nil => simp at hmem
  | cons a t ih =>
    rw [List.sorted_cons] at hs
    by_cases hvt : vf ∈ t
    · have ha : a ≤ vf := hs.1 vf hvt
      rw [List.takeWhile_cons, if_pos (by simpa using ha)]
      have ihh := ih hs.2 hvt
      cases htw : t.takeWhile (fun f => decide (f ≤ vf)) with
      | nil => rw [htw] at ihh; simp at ihh
      | cons b tb =>
        rw [htw] at ihh
        rw [List.getLast?_cons_cons]
        exact ihh
    · have hva : vf = a := by
        rcases List.mem_cons.mp hmem with rfl | hmem'
        · rfl
        · exact absurd hmem' hvt
      subst hva
      rw [List.takeWhile_cons, if_pos (by simp)]
      cases htw : t.takeWhile (fun f => decide (f ≤ vf)) with
      | nil => simp
      | cons b tb =>
        have hb : b ∈ t.takeWhile (fun f => decide (f ≤ vf)) := by
          rw [htw]; exact List.mem_cons_self b tb
        have hbt : b ∈ t := (List.takeWhile_sublist _).mem hb
        have hb1 : b ≤ vf := by simpa using List.mem_takeWhile_imp hb
        have hb2 : vf ≤ b := hs.1 b hbt
        have : b = vf := le_antisymm hb1 hb2
        subst this
        exact absurd hbt hvt

theorem band_degenerate_imp (freqs : List Int) (vf : Int)
    (h : minAcceptable freqs vf = maxAcceptable freqs vf) :
    vf ∈ freqs ∨ freqs = [] := by
  unfold minAcceptable maxAcceptable at h
  cases h1 : (freqs.takeWhile (fun f => decide (f ≤ vf))).getLast? with
  | some m1 =>
    have hm1mem : m1 ∈ freqs :=
      (List.takeWhile_sublist _).mem (mem_of_getLast?_eq _ _ h1)
    have hm1le : m1 ≤ vf := by
      simpa using List.mem_takeWhile_imp (mem_of_getLast?_eq _ _ h1)
    cases h2 : freqs.find? (fun f => decide (vf ≤ f)) with
    | some m2 =>
      have hm2 : vf ≤ m2 := by simpa using List.find?_some h2
      rw [h1, h2] at h
      simp only [Option.getD_some] at h
      subst h
      left
      have : m1 = vf := le_antisymm hm1le hm2
      exact this ▸ hm1mem
    | none =>
      rw [h1, h2] at h
      simp only [Option.getD_some, Option.getD_none] at h
      subst h
      left
      exact hm1mem
  | none =>
    cases h2 : freqs.find? (fun f => decide (vf ≤ f)) with
    | some m2 =>
      rw [h1, h2] at h
      simp only [Option.getD_some, Option.getD_none] at h
      left
      exact h ▸ List.mem_of_find?_eq_some h2
    | none =>
      right
      have htw : freqs.takeWhile (fun f => decide (f ≤ vf)) = [] :=
        List.getLast?_eq_none_iff.mp h1
      cases freqs with
      | nil => rfl
      | cons a t =>
        have hnone := List.find?_eq_none.mp h2 a (List.mem_cons_self a t)
        simp only [decide_eq_true_eq] at hnone
        rw [List.takeWhile_cons] at htw
        by_cases hpa : a ≤ vf
        · rw [if_pos (by simpa using hpa)] at htw
          simp at htw
        · omega

/-- C6 (amended): for every verification baseline target and every sorted
frequency table, the acceptance band
`[minAcceptable freqs vf, maxAcceptable freqs vf]` always contains the target
itself, and the band degenerates to a single point precisely when the target
IS a member of `available_frequencies` (or the table is empty) — not, as the
spec states, only when it is absent. -/
theorem acceptance_band_characterisation (freqs : List Int) (vf : Int)
    (hs : freqs.Sorted (fun a b => a ≤ b)) :
    minAcceptable freqs vf ≤ vf ∧ vf ≤ maxAcceptable freqs vf ∧
      (minAcceptable freqs vf = maxAcceptable freqs vf ↔
        vf ∈ freqs ∨ freqs = []) := by
  refine ⟨minAcceptable_le freqs vf, le_maxAcceptable freqs vf, ?_, ?_⟩
  · exact band_degenerate_imp freqs vf
  · rintro (hmem | rfl)
    · unfold minAcceptable maxAcceptable
      rw [takeWhile_getLast?_of_sorted_mem freqs vf hs hmem,
        find?_ge_of_sorted_mem freqs vf hs hmem]
    · rfl

/-- C6 witness: the band for target 350 on the table `[100, 200, 300, 400]`
contains 350 and is not degenerate. -/
theorem acceptance_band_witness :
    minAcceptable sampleInfo.freqs 350 ≤ 350 ∧
      (350 : Int) ≤ maxAcceptable sampleInfo.freqs 350 ∧
      (minAcceptable sampleInfo.freqs 350 = maxAcceptable sampleInfo.freqs 350 ↔
        (350 : Int) ∈ sampleInfo.freqs ∨ sampleInfo.freqs = []) :=
  acceptance_band_characterisation sampleInfo.freqs 350 (by decide)

/-- C6 counterexample to the claim as stated: on the table
`[100, 200, 300, 400]` with baseline target 200 — which IS in
`available_frequencies` — the band is the single point `[200, 200]`, so the
band degenerates even though the target is in the table, contradicting
"degenerates to a single point only if the target is not in
`available_frequencies`". -/
theorem acceptance_band_counterexample :
    (200 : Int) ∈ sampleInfo.freqs ∧
      minAcceptable sampleInfo.freqs 200 = maxAcceptable sampleInfo.freqs 200 ∧
      minAcceptable sampleInfo.freqs 200 = 200 ∧
      maxAcceptable sampleInfo.freqs 200 = 200 := by decide

/-! Claims C1-C4: the apply-target-frequency paths. -/

theorem ignore_write_set_cur (s : Info) (env : Env) (c : Int) :
    Info.ignore_write { s with cur_fas_freq := c } env = s.ignore_write env :=
  rfl

theorem critical_policy_set_cur (s : Info) (top : CpuSet) (c : Int) :
    Info.critical_policy { s with cur_fas_freq := c } top =
      s.critical_policy top :=
  rfl

/-- C1: for every requested frequency, after `write_freq` the field
`cur_fas_freq` equals `clamp(requested, min freqs, max freqs)` — for any
environment (bypass flag set, clear, or even unreadable) and any busy-core set
(critical, non-critical, or panicking); the second conjunct states that for the
sorted table `lo` and `hi` really are `min`/`max` of `available_frequencies`. -/
theorem write_freq_cur_fas_freq_clamp (s : Info) (top : CpuSet) (freq : Int)
    (env : Env) (now : Nat) (lo hi : Int)
    (hs : s.freqs.Sorted (fun a b => a ≤ b))
    (hlo : s.freqs.head? = some lo) (hhi : s.freqs.getLast? = some hi) :
    (s.write_freq top freq env now).1.cur_fas_freq = rustClamp freq lo hi ∧
      ∀ x ∈ s.freqs, lo ≤ x ∧ x ≤ hi := by
  constructor
  · unfold Info.write_freq
    rw [hlo, hhi]
    dsimp only
    split
    · rfl
    · split
      · rfl
      · split
        · rfl
        · split
          · split
            · simp [verify_freq_step_cur]
            · split
              · simp [verify_freq_step_cur]
              · simp [verify_freq_step_cur]
          · split
            · rfl
            · split
              · rfl
              · rfl
  · intro x hx
    exact ⟨head?_le_of_sorted s.freqs lo hs hlo x hx,
      le_getLast?_of_sorted s.freqs hi hs hhi x hx⟩

/-- C1 witness: domain `[100, 200, 300, 400]`, request 500 on a bypassed
domain with a busy core; `cur_fas_freq` still becomes `clamp 500 100 400`. -/
theorem write_freq_cur_fas_freq_clamp_witness :
    (sampleInfo.write_freq topBusy0 500 envBypass 0).1.cur_fas_freq =
        rustClamp 500 100 400 ∧
      ∀ x ∈ sampleInfo.freqs, (100 : Int) ≤ x ∧ x ≤ 400 :=
  write_freq_cur_fas_freq_clamp sampleInfo topBusy0 500 envBypass 0 100 400
    (by decide) rfl rfl

/-- C2: on a critical, non-bypassed domain with succeeding writes,
`write_freq` first runs the verification check with the clamped target (the
`verifyEval` events, if any, precede the writes, and the stored baseline
becomes the clamped target), then writes the ceiling file and afterwards the
floor file, both with exactly the clamped value. -/
theorem write_freq_critical_path (s : Info) (top : CpuSet) (freq : Int)
    (env : Env) (now : Nat) (lo hi : Int)
    (hlo : s.freqs.head? = some lo) (hhi : s.freqs.getLast? = some hi)
    (hig : s.ignore_write env = .ok false)
    (hcrit : s.critical_policy top = some true)
    (hw1 : env.wfail CtrlFile.scalingMaxFreq (rustClamp freq lo hi) = false)
    (hw2 : env.wfail CtrlFile.scalingMinFreq (rustClamp freq lo hi) = false) :
    s.write_freq top freq env now =
      (let s1 : Info := { s with cur_fas_freq := rustClamp freq lo hi }
        let r := s1.verify_freq_step (rustClamp freq lo hi) now env
        (r.1,
          (match r.2 with
            | some e => [Event.verifyEval e]
            | none => []) ++
            [Event.write CtrlFile.scalingMaxFreq (rustClamp freq lo hi),
              Event.write CtrlFile.scalingMinFreq (rustClamp freq lo hi)],
          Outcome.ok)) ∧
      (s.write_freq top freq env now).1.verify_freq =
        some (rustClamp freq lo hi) := by
  have hmain : s.write_freq top freq env now =
      (let s1 : Info := { s with cur_fas_freq := rustClamp freq lo hi }
        let r := s1.verify_freq_step (rustClamp freq lo hi) now env
        (r.1,
          (match r.2 with
            | some e => [Event.verifyEval e]
            | none => []) ++
            [Event.write CtrlFile.scalingMaxFreq (rustClamp freq lo hi),
              Event.write CtrlFile.scalingMinFreq (rustClamp freq lo hi)],
          Outcome.ok)) := by
    unfold Info.write_freq
    rw [hlo, hhi]
    dsimp only
    rw [ignore_write_set_cur, hig]
    dsimp only
    rw [critical_policy_set_cur, hcrit]
    dsimp only
    rw [if_pos rfl]
    simp only [hw1, hw2]
    simp
  refine ⟨hmain, ?_⟩
  rw [hmain]
  dsimp only
  exact verify_freq_step_verify_freq _ _ _ _

/-- C2 witness: domain `[100, 200, 300, 400]`, request 500, core 0 busy. -/
theorem write_freq_critical_path_witness :
    sampleInfo.write_freq topBusy0 500 envOk 0 =
      (let s1 : Info := { sampleInfo with cur_fas_freq := rustClamp 500 100 400 }
        let r := s1.verify_freq_step (rustClamp 500 100 400) 0 envOk
        (r.1,
          (match r.2 with
            | some e => [Event.verifyEval e]
            | none => []) ++
            [Event.write CtrlFile.scalingMaxFreq (rustClamp 500 100 400),
              Event.write CtrlFile.scalingMinFreq (rustClamp 500 100 400)],
          Outcome.ok)) ∧
      (sampleInfo.write_freq topBusy0 500 envOk 0).1.verify_freq =
        some (rustClamp 500 100 400) :=
  write_freq_critical_path sampleInfo topBusy0 500 envOk 0 100 400
    rfl rfl rfl (by decide) rfl rfl

/-- C3: on a non-critical, non-bypassed domain with succeeding writes,
`write_freq` writes the floor file with the domain minimum, then the ceiling
file with the clamped target; the result state shows the verification fields
untouched and the trace contains no `verifyEval` event. -/
theorem write_freq_noncritical_path (s : Info) (top : CpuSet) (freq : Int)
    (env : Env) (now : Nat) (lo hi : Int)
    (hlo : s.freqs.head? = some lo) (hhi : s.freqs.getLast? = some hi)
    (hig : s.ignore_write env = .ok false)
    (hcrit : s.critical_policy top = some false)
    (hw1 : env.wfail CtrlFile.scalingMinFreq lo = false)
    (hw2 : env.wfail CtrlFile.scalingMaxFreq (rustClamp freq lo hi) = false) :
    s.write_freq top freq env now =
      ({ s with cur_fas_freq := rustClamp freq lo hi },
        [Event.write CtrlFile.scalingMinFreq lo,
          Event.write CtrlFile.scalingMaxFreq (rustClamp freq lo hi)],
        Outcome.ok) := by
  unfold Info.write_freq
  rw [hlo, hhi]
  dsimp only
  rw [ignore_write_set_cur, hig]
  dsimp only
  rw [critical_policy_set_cur, hcrit]
  dsimp only
  rw [if_neg (by simp)]
  simp only [hw1, hw2]
  simp

/-- C3 witness: the spec's own scenario — request 350, non-critical, not
bypassed, writes floor 100 then ceiling 350. -/
theorem write_freq_noncritical_path_witness :
    sampleInfo.write_freq topIdle 350 envOk 0 =
      ({ sampleInfo with cur_fas_freq := rustClamp 350 100 400 },
        [Event.write CtrlFile.scalingMinFreq 100,
          Event.write CtrlFile.scalingMaxFreq (rustClamp 350 100 400)],
        Outcome.ok) :=
  write_freq_noncritical_path sampleInfo topIdle 350 envOk 0 100 400
    rfl rfl rfl (by decide) rfl rfl

/-- C4: on a bypassed domain, `write_freq` issues no write (and no
verification effect), returns success, and still updates `cur_fas_freq` to
the clamped requested value. -/
theorem write_freq_bypass (s : Info) (top : CpuSet) (freq : Int)
    (env : Env) (now : Nat) (lo hi : Int)
    (hlo : s.freqs.head? = some lo) (hhi : s.freqs.getLast? = some hi)
    (hig : s.ignore_write env = .ok true) :
    s.write_freq top freq env now =
      ({ s with cur_fas_freq := rustClamp freq lo hi }, [], Outcome.ok) := by
  unfold Info.write_freq
  rw [hlo, hhi]
  dsimp only
  rw [ignore_write_set_cur, hig]
  dsimp only
  rw [if_pos rfl]

/-- C4 witness: the spec's scenario — bypass set, request 250; no events,
success, `cur_fas_freq = 250`. -/
theorem write_freq_bypass_witness :
    sampleInfo.write_freq topBusy0 250 envBypass 0 =
      ({ sampleInfo with cur_fas_freq := rustClamp 250 100 400 }, [],
        Outcome.ok) :=
  write_freq_bypass sampleInfo topBusy0 250 envBypass 0 100 400 rfl rfl rfl

/-! Claim C9: reset. -/

/-- C9: `reset` clears the verification baseline unconditionally (even when a
write fails), writes the maximum available frequency to the ceiling file and
the minimum to the floor file when the writes succeed, and propagates a Write
Executor failure on either file as an error. -/
theorem reset_spec (s : Info) (env : Env) (lo hi : Int)
    (hlo : s.freqs.head? = some lo) (hhi : s.freqs.getLast? = some hi) :
    (s.reset env).1.verify_freq = none ∧
      (env.wfail CtrlFile.scalingMaxFreq hi = false →
        env.wfail CtrlFile.scalingMinFreq lo = false →
        s.reset env =
          ({ s with verify_freq := none },
            [Event.write CtrlFile.scalingMaxFreq hi,
              Event.write CtrlFile.scalingMinFreq lo],
            Outcome.ok)) ∧
      ((env.wfail CtrlFile.scalingMaxFreq hi = true ∨
          env.wfail CtrlFile.scalingMinFreq lo = true) →
        (s.reset env).2.2 = Outcome.err "write failed") := by
  unfold Info.reset
  rw [hlo, hhi]
  dsimp only
  refine ⟨?_, ?_, ?_⟩
  · split
    · rfl
    · split
      · rfl
      · rfl
  · intro h1 h2
    simp only [h1, h2]
    simp
  · intro h
    rcases h with h | h
    · simp only [h]
      simp
    · simp only [h]
      split
      · rfl
      · simp

/-- C9 witness: domain `[100, 200, 300, 400]` with succeeding writes. -/
theorem reset_spec_witness :
    (sampleInfo.reset envOk).1.verify_freq = none ∧
      (envOk.wfail CtrlFile.scalingMaxFreq 400 = false →
        envOk.wfail CtrlFile.scalingMinFreq 100 = false →
        sampleInfo.reset envOk =
          ({ sampleInfo with verify_freq := none },
            [Event.write CtrlFile.scalingMaxFreq 400,
              Event.write CtrlFile.scalingMinFreq 100],
            Outcome.ok)) ∧
      ((envOk.wfail CtrlFile.scalingMaxFreq 400 = true ∨
          envOk.wfail CtrlFile.scalingMinFreq 100 = true) →
        (sampleInfo.reset envOk).2.2 = Outcome.err "write failed") :=
  reset_spec sampleInfo envOk 100 400 rfl rfl

/-! Claim C8: affinity failures during construction. -/

/-- C8 (code behaviour at the failing input): an unreadable affected-cpus
list does return an error as the claim says, but a list containing the
unparseable token `"x"` makes `Info::new` PANIC (`unwrap` inside the `map`
closure) instead of returning a tagged error, so the offending domain crashes
the process rather than being skipped. -/
theorem new_affinity_error_behaviour :
    Info.new sampleDirBadCore 0 = NewResult.panicked ∧
      Info.new sampleDirNoAffinity 0 =
        NewResult.err "Failed to read affected_cpus" := by decide

/-! Claim C10: the unwrap inside the criticality test. -/

theorem criticalAny_isSome (top : CpuSet) (l : List Nat)
    (h : ∀ c ∈ l, c < top.size) : ∃ b, criticalAny top l = some b := by
  induction l with
  | nil => exact ⟨false, rfl⟩
  | cons c rest ih =>
    have hc : c < top.size := h c (List.mem_cons_self c rest)
    have hrest := ih (fun x hx => h x (List.mem_cons_of_mem c hx))
    unfold criticalAny CpuSet.is_set
    rw [if_pos hc]
    cases hb : top.bits c with
    | true => exact ⟨true, rfl⟩
    | false => simpa using hrest

/-- A panicking `write_freq` call can only come from the `unwrap` inside
`critical_policy` returning no value. -/
theorem write_freq_panicked_imp (s : Info) (top : CpuSet) (freq : Int)
    (env : Env) (now : Nat)
    (hp : (s.write_freq top freq env now).2.2 = Outcome.panicked) :
    s.critical_policy top = none := by
  unfold Info.write_freq at hp
  repeat' first
    | split at hp
    | dsimp only at hp
  all_goals try assumption
  all_goals simp at hp

/-- C10 (amended): `critical_policy` unwraps the membership queries in order,
short-circuiting at the first busy core, so under the precondition that every
affected core index is a valid index of the busy-core set the query always
succeeds and the panic branch of `write_freq` is unreachable. -/
theorem critical_policy_no_panic (s : Info) (top : CpuSet)
    (h : ∀ c ∈ s.affected_cpus, c < top.size) :
    (∃ b, s.critical_policy top = some b) ∧
      ∀ freq env now,
        (s.write_freq top freq env now).2.2 ≠ Outcome.panicked := by
  have hsome : ∃ b, s.critical_policy top = some b :=
    criticalAny_isSome top s.affected_cpus h
  refine ⟨hsome, ?_⟩
  intro freq env now hcontra
  rcases hsome with ⟨b, hb⟩
  have hnone := write_freq_panicked_imp s top freq env now hcontra
  rw [hb] at hnone
  cases hnone

/-- C10 witness: every affected core of the sample domain is a valid index of
the 1024-bit busy-core set, so no call panics. -/
theorem critical_policy_no_panic_witness :
    (∃ b, sampleInfo.critical_policy topBusy0 = some b) ∧
      ∀ freq env now,
        (sampleInfo.write_freq topBusy0 freq env now).2.2 ≠
          Outcome.panicked :=
  critical_policy_no_panic sampleInfo topBusy0 (by decide)

/-- C10 counterexample to the claim as stated: with core 0 busy, the `any`
iterator short-circuits before examining the out-of-range index 2000, so the
call succeeds — refuting "if any affected core index is outside the range
representable by the busy-core set, the call panics". The final conjunct shows
the panic is real when the out-of-range index is actually reached (no busy
core before it). -/
theorem critical_policy_short_circuit_counterexample :
    ¬ 2000 < topBusy0.size ∧ (2000 : Nat) ∈ oobInfo.affected_cpus ∧
      oobInfo.critical_policy topBusy0 = some true ∧
      (oobInfo.write_freq topBusy0 300 envOk 0).2.2 = Outcome.ok ∧
      (oobInfo.write_freq topIdle 300 envOk 0).2.2 = Outcome.panicked := by
  decide

/-! Claim C5: verification debounce and baseline. -/

theorem runVerify_fst_cons (s : Info) (env : Env) (c : VCall) (cs : List VCall) :
    (s.runVerify env (c :: cs)).1 =
      ((s.verify_freq_step c.target c.now env).1.runVerify env cs).1 := rfl

theorem runVerify_snd_cons (s : Info) (env : Env) (c : VCall) (cs : List VCall) :
    (s.runVerify env (c :: cs)).2 =
      ⟨c.now, c.target, decide (threeSecsMs ≤ c.now - s.verify_timer),
          (s.verify_freq_step c.target c.now env).2⟩ ::
        ((s.verify_freq_step c.target c.now env).1.runVerify env cs).2 := rfl

theorem runVerify_timer_le (cs : List VCall) :
    ∀ (s : Info) (env : Env),
      s.verify_timer ≤ (s.runVerify env cs).1.verify_timer := by
  induction cs with
  | nil => intro s env; exact le_refl _
  | cons c cs ih =>
    intro s env
    rw [runVerify_fst_cons]
    exact le_trans (verify_freq_step_timer_le s c.target c.now env)
      (ih _ env)

/-- Every evaluation in a verification run happens at least one full window
after the timer value the run started with. -/
theorem runVerify_eval_time_lb (cs : List VCall) :
    ∀ (s : Info) (env : Env) (st : VStep) (e : VerifyEvent),
      st ∈ (s.runVerify env cs).2 → st.ev = some e →
      s.verify_timer + threeSecsMs ≤ st.time := by
  induction cs with
  | nil =>
    intro s env st e hmem _
    simp [Info.runVerify] at hmem
  | cons c cs ih =>
    intro s env st e hmem hev
    rw [runVerify_snd_cons] at hmem
    rcases List.mem_cons.mp hmem with rfl | hmem'
    · dsimp only at hev ⊢
      exact (verify_freq_step_ev_eq s c.target c.now env e hev).2.1
    · have h1 := verify_freq_step_timer_le s c.target c.now env
      have h2 := ih _ env st e hmem' hev
      omega

/-- First half of C5: two consecutive evaluations in the trace are at least
one 3-second window apart. -/
theorem runVerify_debounce (cs : List VCall) :
    ∀ (s : Info) (env : Env),
      List.Chain' (fun a b => a.time + threeSecsMs ≤ b.time)
        (((s.runVerify env cs).2).filter (fun st => st.ev.isSome)) := by
  induction cs with
  | nil => intro s env; exact List.chain'_nil
  | cons c cs ih =>
    intro s env
    rw [runVerify_snd_cons]
    cases hev : (s.verify_freq_step c.target c.now env).2 with
    | none =>
      rw [List.filter_cons]
      dsimp only
      rw [if_neg (by simp)]
      exact ih _ env
    | some e =>
      rw [List.filter_cons]
      dsimp only
      rw [if_pos (by simp)]
      rw [List.chain'_cons']
      refine ⟨?_, ih _ env⟩
      intro y hy
      have hy' : y ∈ (((s.verify_freq_step c.target c.now env).1.runVerify
          env cs).2).filter (fun st => st.ev.isSome) :=
        List.mem_of_mem_head? hy
      rw [List.mem_filter] at hy'
      obtain ⟨e', he'⟩ := Option.isSome_iff_exists.mp hy'.2
      have hlow := runVerify_eval_time_lb cs
        (s.verify_freq_step c.target c.now env).1 env y e' hy'.1 he'
      have htimer := (verify_freq_step_ev_eq s c.target c.now env e hev).1
      dsimp only
      omega

/-- If the state entering a verification run holds baseline `v`, the first
recorded call's evaluation (if it performs one) uses `v` as baseline. -/
theorem runVerify_head_ev_baseline (cs : List VCall) (s : Info) (env : Env)
    (v : Int) (hv : s.verify_freq = some v) (st : VStep)
    (hst : ((s.runVerify env cs).2).head? = some st) (e : VerifyEvent)
    (hev : st.ev = some e) : e.baseline = v := by
  cases cs with
  | nil => simp [Info.runVerify] at hst
  | cons c cs =>
    rw [runVerify_snd_cons, List.head?_cons] at hst
    injection hst with hst
    subst hst
    dsimp only at hev
    have h3 := (verify_freq_step_ev_eq s c.target c.now env e hev).2.2
    rw [hv] at h3
    injection h3 with h3
    exact h3.symm

/-- Second half of C5 (amended): each evaluation's baseline is the target
stored by the immediately preceding call — every call stores its clamped
target as the next baseline, whether or not its window closed. -/
theorem runVerify_baseline_chain (cs : List VCall) :
    ∀ (s : Info) (env : Env),
      List.Chain' (fun a b => ∀ e, b.ev = some e → e.baseline = a.target)
        ((s.runVerify env cs).2) := by
  induction cs with
  | nil => intro s env; exact List.chain'_nil
  | cons c cs ih =>
    intro s env
    rw [runVerify_snd_cons, List.chain'_cons']
    refine ⟨?_, ih _ env⟩
    intro y hy e hev
    dsimp only
    exact runVerify_head_ev_baseline cs
      (s.verify_freq_step c.target c.now env).1 env c.target
      (verify_freq_step_verify_freq s c.target c.now env) y
      (Option.mem_def.mp hy) e hev

/-- C5 (amended): over any sequence of verification calls, (1) two
consecutive evaluations are at least 3 seconds apart (at most one evaluation
per window), and (2) each evaluation uses as its baseline the target stored
by the immediately preceding call — not the current call's target, but also
not necessarily the target stored at the close of the previous window. -/
theorem runVerify_debounce_and_baseline (s : Info) (env : Env)
    (cs : List VCall) :
    List.Chain' (fun a b => a.time + threeSecsMs ≤ b.time)
        (((s.runVerify env cs).2).filter (fun st => st.ev.isSome)) ∧
      List.Chain' (fun a b => ∀ e, b.ev = some e → e.baseline = a.target)
        ((s.runVerify env cs).2) :=
  ⟨runVerify_debounce cs s env, runVerify_baseline_chain cs s env⟩

/-- C5 witness: the amended statement instantiated on a concrete three-call
run whose third call performs an evaluation. -/
theorem runVerify_debounce_and_baseline_witness :
    List.Chain' (fun a b => a.time + threeSecsMs ≤ b.time)
        (((sampleInfo.runVerify envOk
            [⟨3000, 100⟩, ⟨4000, 200⟩, ⟨6000, 300⟩]).2).filter
          (fun st => st.ev.isSome)) ∧
      List.Chain' (fun a b => ∀ e, b.ev = some e → e.baseline = a.target)
        ((sampleInfo.runVerify envOk
          [⟨3000, 100⟩, ⟨4000, 200⟩, ⟨6000, 300⟩]).2) :=
  runVerify_debounce_and_baseline sampleInfo envOk
    [⟨3000, 100⟩, ⟨4000, 200⟩, ⟨6000, 300⟩]

/-- C5 counterexample to the claim as stated: calls at t = 3s (target 100,
window closes, baseline was `None`, no evaluation), t = 4s (target 200,
mid-window) and t = 6s (target 300, window closes, evaluation). The only
earlier window close stored target 100, yet the evaluation at t = 6s uses
baseline 200 — the target stored by the mid-window call — refuting "each
evaluation uses as its baseline the target stored at the close of the
previous window". -/
theorem runVerify_baseline_counterexample :
    (sampleInfo.runVerify envOk
        [⟨3000, 100⟩, ⟨4000, 200⟩, ⟨6000, 300⟩]).2 =
      [⟨3000, 100, true, none⟩, ⟨4000, 200, false, none⟩,
        ⟨6000, 300, true, some ⟨200, 150, 200, 200, true⟩⟩] ∧
      (200 : Int) ≠ 100 := by decide

/-! Claim C7: lifetime invariants of a constructed domain. -/

theorem write_freq_freqs (s : Info) (top : CpuSet) (freq : Int) (env : Env)
    (now : Nat) : (s.write_freq top freq env now).1.freqs = s.freqs := by
  unfold Info.write_freq
  repeat' first
    | split
    | dsimp only
  all_goals simp [verify_freq_step_freqs]

theorem reset_freqs (s : Info) (env : Env) :
    (s.reset env).1.freqs = s.freqs := by
  unfold Info.reset
  repeat' first
    | dsimp only
    | split

theorem reset_cur (s : Info) (env : Env) :
    (s.reset env).1.cur_fas_freq = s.cur_fas_freq := by
  unfold Info.reset
  repeat' first
    | dsimp only
    | split

theorem write_freq_events_within (s : Info) (top : CpuSet) (freq : Int)
    (env : Env) (now : Nat) (lo hi : Int)
    (hlo : s.freqs.head? = some lo) (hhi : s.freqs.getLast? = some hi)
    (hlohi : lo ≤ hi) :
    ((s.write_freq top freq env now).2.1).Forall (writeWithin lo hi) := by
  have hc := rustClamp_mem freq lo hi hlohi
  unfold Info.write_freq
  rw [hlo, hhi]
  repeat' first
    | dsimp only
    | split
  all_goals dsimp only [List.nil_append, List.singleton_append, List.cons_append,
    List.Forall, writeWithin]
  all_goals first
    | trivial
    | omega

theorem reset_events_within (s : Info) (env : Env) (lo hi : Int)
    (hlo : s.freqs.head? = some lo) (hhi : s.freqs.getLast? = some hi)
    (hlohi : lo ≤ hi) :
    ((s.reset env).2.1).Forall (writeWithin lo hi) := by
  unfold Info.reset
  rw [hlo, hhi]
  repeat' first
    | dsimp only
    | split
  all_goals dsimp only [List.Forall, writeWithin]
  all_goals first
    | trivial
    | omega

theorem run_nil (s : Info) : s.run [] = (s, []) := rfl

theorem run_cons (s : Info) (op : Op) (ops : List Op) :
    s.run (op :: ops) =
      (((s.stepOp op).1.run ops).1,
        (s.stepOp op).2.1 ++ ((s.stepOp op).1.run ops).2) := rfl

/-- Invariant preservation along any run: the table is untouched, the clamped
target stays in `[lo, hi]`, and every write event carries a value in
`[lo, hi]`. -/
theorem run_inv (ops : List Op) :
    ∀ (s : Info) (lo hi : Int), s.freqs.Sorted (fun a b => a ≤ b) →
      s.freqs.head? = some lo → s.freqs.getLast? = some hi →
      lo ≤ s.cur_fas_freq → s.cur_fas_freq ≤ hi →
      (Info.run s ops).1.freqs = s.freqs ∧
        lo ≤ (Info.run s ops).1.cur_fas_freq ∧
        (Info.run s ops).1.cur_fas_freq ≤ hi ∧
        ((Info.run s ops).2).Forall (writeWithin lo hi) := by
  induction ops with
  | nil =>
    intro s lo hi _ _ _ h1 h2
    exact ⟨rfl, h1, h2, trivial⟩
  | cons op ops ih =>
    intro s lo hi hs hlo hhi h1 h2
    have hlohi : lo ≤ hi := head?_le_getLast?_of_sorted s.freqs lo hi hs hlo hhi
    rw [run_cons]
    cases op with
    | applyFreq top freq env now =>
      dsimp only [Info.stepOp]
      have hfr : (s.write_freq top freq env now).1.freqs = s.freqs :=
        write_freq_freqs s top freq env now
      have hcur := (write_freq_cur_fas_freq_clamp s top freq env now lo hi
        hs hlo hhi).1
      have hcb := rustClamp_mem freq lo hi hlohi
      have hrest := ih (s.write_freq top freq env now).1 lo hi
        (by rw [hfr]; exact hs) (by rw [hfr]; exact hlo) (by rw [hfr]; exact hhi)
        (by rw [hcur]; exact hcb.1) (by rw [hcur]; exact hcb.2)
      refine ⟨by rw [hrest.1, hfr], hrest.2.1, hrest.2.2.1, ?_⟩
      rw [List.forall_iff_forall_mem]
      intro ev hev
      rcases List.mem_append.mp hev with hev | hev
      · exact List.forall_iff_forall_mem.mp
          (write_freq_events_within s top freq env now lo hi hlo hhi hlohi)
          ev hev
      · exact List.forall_iff_forall_mem.mp hrest.2.2.2 ev hev
    | resetCall env =>
      dsimp only [Info.stepOp]
      have hfr : (s.reset env).1.freqs = s.freqs := reset_freqs s env
      have hcur : (s.reset env).1.cur_fas_freq = s.cur_fas_freq :=
        reset_cur s env
      have hrest := ih (s.reset env).1 lo hi
        (by rw [hfr]; exact hs) (by rw [hfr]; exact hlo) (by rw [hfr]; exact hhi)
        (by rw [hcur]; exact h1) (by rw [hcur]; exact h2)
      refine ⟨by rw [hrest.1, hfr], hrest.2.1, hrest.2.2.1, ?_⟩
      rw [List.forall_iff_forall_mem]
      intro ev hev
      rcases List.mem_append.mp hev with hev | hev
      · exact List.forall_iff_forall_mem.mp
          (reset_events_within s env lo hi hlo hhi hlohi) ev hev
      · exact List.forall_iff_forall_mem.mp hrest.2.2.2 ev hev

/-- What a successful construction guarantees: sorted non-empty table and the
current target initialised to the table maximum. -/
theorem new_ok_facts (d : CpufreqDir) (now : Nat) (i : Info)
    (h : Info.new d now = NewResult.ok i) :
    i.freqs.Sorted (fun a b => a ≤ b) ∧ i.freqs ≠ [] ∧
      i.freqs.getLast? = some i.cur_fas_freq := by
  unfold Info.new at h
  repeat' first
    | split at h
    | dsimp only at h
  all_goals cases h
  next freqs0 _ _ _ _ _ top hlast =>
    dsimp only
    refine ⟨List.sorted_insertionSort _ _, ?_, hlast⟩
    intro hcontra
    rw [hcontra] at hlast
    cases hlast

/-- C7: for every successfully constructed domain and every sequence of
apply / reset calls, `available_frequencies` stays sorted ascending and
non-empty, `cur_fas_freq` stays within
`[min available_frequencies, max available_frequencies]`, and every write
event issued along the run carries a value within those bounds. -/
theorem domain_invariants (d : CpufreqDir) (now0 : Nat) (i : Info)
    (ops : List Op) (h : Info.new d now0 = NewResult.ok i) :
    (Info.run i ops).1.freqs = i.freqs ∧
      i.freqs.Sorted (fun a b => a ≤ b) ∧ i.freqs ≠ [] ∧
      ∀ lo hi, i.freqs.head? = some lo → i.freqs.getLast? = some hi →
        lo ≤ (Info.run i ops).1.cur_fas_freq ∧
          (Info.run i ops).1.cur_fas_freq ≤ hi ∧
          ((Info.run i ops).2).Forall (writeWithin lo hi) := by
  obtain ⟨hs, hne, hlast⟩ := new_ok_facts d now0 i h
  have hcurmem : i.cur_fas_freq ∈ i.freqs := mem_of_getLast?_eq _ _ hlast
  have hmain : ∀ lo hi, i.freqs.head? = some lo →
      i.freqs.getLast? = some hi →
      (Info.run i ops).1.freqs = i.freqs ∧
        lo ≤ (Info.run i ops).1.cur_fas_freq ∧
        (Info.run i ops).1.cur_fas_freq ≤ hi ∧
        ((Info.run i ops).2).Forall (writeWithin lo hi) := by
    intro lo hi hlo hhi
    have hhieq : hi = i.cur_fas_freq := by
      rw [hlast] at hhi
      injection hhi with hhi
      exact hhi.symm
    have h1 : lo ≤ i.cur_fas_freq :=
      head?_le_of_sorted i.freqs lo hs hlo i.cur_fas_freq hcurmem
    have h2 : i.cur_fas_freq ≤ hi := le_of_eq hhieq.symm
    exact run_inv ops i lo hi hs hlo hhi h1 h2
  have hlo0 : ∃ lo, i.freqs.head? = some lo := by
    cases hF : i.freqs with
    | nil => exact absurd hF hne
    | cons a t => exact ⟨a, rfl⟩
  obtain ⟨lo0, hlo0⟩ := hlo0
  refine ⟨(hmain lo0 i.cur_fas_freq hlo0 hlast).1, hs, hne, ?_⟩
  intro lo hi hlo hhi
  exact ⟨(hmain lo hi hlo hhi).2.1, (hmain lo hi hlo hhi).2.2.1,
    (hmain lo hi hlo hhi).2.2.2⟩

/-- C7 witness: the sample directory constructs, then one non-critical apply
of 350 and one reset keep every invariant. -/
theorem domain_invariants_witness :
    (Info.run sampleInfo
          [Op.applyFreq topIdle 350 envOk 0, Op.resetCall envOk]).1.freqs =
        sampleInfo.freqs ∧
      sampleInfo.freqs.Sorted (fun a b => a ≤ b) ∧ sampleInfo.freqs ≠ [] ∧
      ∀ lo hi, sampleInfo.freqs.head? = some lo →
        sampleInfo.freqs.getLast? = some hi →
        lo ≤ (Info.run sampleInfo
            [Op.applyFreq topIdle 350 envOk 0, Op.resetCall envOk]).1.cur_fas_freq ∧
          (Info.run sampleInfo
            [Op.applyFreq topIdle 350 envOk 0, Op.resetCall envOk]).1.cur_fas_freq ≤ hi ∧
          ((Info.run sampleInfo
            [Op.applyFreq topIdle 350 envOk 0, Op.resetCall envOk]).2).Forall
            (writeWithin lo hi) :=
  domain_invariants sampleDir 0 sampleInfo
    [Op.applyFreq topIdle 350 envOk 0, Op.resetCall envOk] (by decide)

end FasRs
